import Mathlib

/-!
Verification of the frame-extraction and grid-reconciliation pipeline of guff
(src/guff.ts and the legacy single-provider variant).

The TypeScript source is shallowly embedded: pure numeric code over JS numbers
is modelled with ℕ/ℤ for integer-valued quantities and exact rationals (ℚ) for
the fractional arithmetic feeding Math.round; Math.round x = floor(x + 1/2) is
modelled by jsRound.  Process-exit error paths become result inductives.
-/

/-- Math.round on an exact rational: JS rounds half-up, i.e. ⌊q + 1/2⌋.
Implemented by integer euclidean division so that the kernel can evaluate it;
jsRound_eq_round identifies it with Mathlib's round. -/
def jsRound (q : ℚ) : ℤ := (2 * q.num + (q.den : ℤ)) / ((2 * q.den : ℕ) : ℤ)

theorem jsRound_eq_round (q : ℚ) : jsRound q = round q := by
  rw [round_eq, jsRound]
  have hd : ((q.den : ℚ)) ≠ 0 := Nat.cast_ne_zero.mpr q.den_nz
  have h : q + 1/2 = ((2 * q.num + (q.den : ℤ) : ℤ) : ℚ) / ((2 * q.den : ℕ) : ℚ) := by
    push_cast
    nth_rewrite 1 [← Rat.num_div_den q]
    field_simp
    ring
  rw [h, Rat.floor_intCast_div_natCast]

theorem jsRound_le (q : ℚ) : (jsRound q : ℚ) ≤ q + 1/2 := by
  rw [jsRound_eq_round, round_eq]
  exact Int.floor_le (q + 1/2)

/-!
## Grid Layout Planner (guff.ts gridLayout, lines 194-204)

```
function gridLayout(n) {
  let bestCols = n, bestRows = 1;
  for (let r = 2; r * r <= n; r++) {
    if (n % r === 0) { bestCols = n / r; bestRows = r; }
  }
  return { cols: bestCols, rows: bestRows };
}
```
The loop is embedded with explicit fuel; fuel n is ample since the loop runs
while r * r ≤ n.
-/

def gridLayoutAux (n : ℕ) : ℕ → ℕ → ℕ × ℕ → ℕ × ℕ
  | 0, _, best => best
  | fuel + 1, r, best =>
    if r * r ≤ n then
      gridLayoutAux n fuel (r + 1) (if n % r = 0 then (n / r, r) else best)
    else best

def gridLayout (n : ℕ) : ℕ × ℕ := gridLayoutAux n n 2 (n, 1)

/-!
## Grid policy check (guff.ts lines 227-247, part_001 lines 211-231)

Rejection of single-row grids wider than 3, with two suggested alternative
frame counts: the first m < n (scanning n-1 down to 2) and the first m > n
(scanning n+1 up to 16) whose grid has rows > 1 or which is itself ≤ 3.
-/

def goodAlt (m : ℕ) : Bool := 1 < (gridLayout m).2 || m ≤ 3

/-- The downward scan `for (let m = n-1; m >= 2; m--)`: downFrom k tries
k, k-1, ..., 2. -/
def downFrom : ℕ → Option ℕ
  | 0 => none
  | 1 => none
  | m + 2 => if goodAlt (m + 2) then some (m + 2) else downFrom (m + 1)

/-- The upward scan `for (let m = start; m <= 16; m++)`, with fuel. -/
def upFromAux : ℕ → ℕ → Option ℕ
  | 0, _ => none
  | fuel + 1, m =>
    if 16 < m then none
    else if goodAlt m then some m
    else upFromAux fuel (m + 1)

def suggestDown (n : ℕ) : Option ℕ := downFrom (n - 1)

def suggestUp (n : ℕ) : Option ℕ := upFromAux 18 (n + 1)

def suggestions (n : ℕ) : List ℕ := (suggestDown n).toList ++ (suggestUp n).toList

inductive Provider where
  | gemini
  | claude
deriving DecidableEq

inductive PlanResult where
  | rejected (message : String) (suggest : List ℕ)
  | planned (cols rows : ℕ)
deriving DecidableEq

def rejectMsg (n : ℕ) : String :=
  toString n ++ " frames can't form a clean grid (only " ++
    toString (gridLayout n).1 ++ "x1). Try: " ++
    String.intercalate " or " ((suggestions n).map toString)

/-- The grid validation step: only the composite-image (gemini) path rejects a
single-row grid with more than 3 columns. -/
def planGrid (p : Provider) (n : ℕ) : PlanResult :=
  if p = Provider.gemini ∧ (gridLayout n).2 = 1 ∧ 3 < (gridLayout n).1 then
    PlanResult.rejected (rejectMsg n) (suggestions n)
  else PlanResult.planned (gridLayout n).1 (gridLayout n).2

/-! Helper lemmas about the two scans. -/

theorem downFrom_some {M d : ℕ} (h : downFrom M = some d) :
    2 ≤ d ∧ d ≤ M ∧ goodAlt d = true ∧
      ∀ m, d < m → m ≤ M → goodAlt m = false := by
  induction M using Nat.strong_induction_on with
  | _ M ih =>
    match M with
    | 0 => simp [downFrom] at h
    | 1 => simp [downFrom] at h
    | K + 2 =>
      rw [downFrom] at h
      by_cases hg : goodAlt (K + 2) = true
      · rw [if_pos hg] at h
        cases h
        exact ⟨by omega, le_refl _, hg, fun m hm hm2 => by omega⟩
      · rw [if_neg hg] at h
        obtain ⟨h1, h2, h3, h4⟩ := ih (K + 1) (by omega) h
        refine ⟨h1, by omega, h3, fun m hm hm2 => ?_⟩
        rcases Nat.lt_or_ge m (K + 2) with hlt | hge
        · exact h4 m hm (by omega)
        · have : m = K + 2 := by omega
          subst this
          exact Bool.not_eq_true _ ▸ hg

theorem upFromAux_some {fuel m u : ℕ} (h : upFromAux fuel m = some u) :
    m ≤ u ∧ u ≤ 16 ∧ goodAlt u = true ∧
      ∀ j, m ≤ j → j < u → goodAlt j = false := by
  induction fuel generalizing m with
  | zero => simp [upFromAux] at h
  | succ f ih =>
    rw [upFromAux] at h
    by_cases h16 : 16 < m
    · rw [if_pos h16] at h
      cases h
    · rw [if_neg h16] at h
      by_cases hg : goodAlt m = true
      · rw [if_pos hg] at h
        cases h
        exact ⟨le_refl _, by omega, hg, fun j hj hj2 => by omega⟩
      · rw [if_neg hg] at h
        obtain ⟨h1, h2, h3, h4⟩ := ih h
        refine ⟨by omega, h2, h3, fun j hj hj2 => ?_⟩
        rcases Nat.lt_or_ge j (m + 1) with hlt | hge
        · have : j = m := by omega
          subst this
          exact Bool.not_eq_true _ ▸ hg
        · exact h4 j hge hj2

set_option maxRecDepth 100000 in
/-- C2: for every n in [2,64], gridLayout n returns (cols, rows) with
cols * rows = n, where rows is the largest r with 2 ≤ r, r * r ≤ n and r ∣ n;
if no such divisor exists, it returns (n, 1). -/
theorem gridLayout_factor_pair_spec :
    ∀ n ∈ Finset.Icc 2 64,
      (gridLayout n).1 * (gridLayout n).2 = n ∧
      ((∃ r ∈ Finset.Icc 2 n, r * r ≤ n ∧ n % r = 0) →
        2 ≤ (gridLayout n).2 ∧ (gridLayout n).2 * (gridLayout n).2 ≤ n ∧
          n % (gridLayout n).2 = 0 ∧
          ∀ r ∈ Finset.Icc 2 n, r * r ≤ n → n % r = 0 → r ≤ (gridLayout n).2) ∧
      ((¬ ∃ r ∈ Finset.Icc 2 n, r * r ≤ n ∧ n % r = 0) →
        gridLayout n = (n, 1)) := by
  decide

theorem gridLayout_factor_pair_spec_witness :
    (gridLayout 12).1 * (gridLayout 12).2 = 12 :=
  (gridLayout_factor_pair_spec 12 (by decide)).1

/-- C3: on the composite-image (gemini) path, a frame count whose grid is a
single row wider than 3 columns is rejected with the "can't form a clean grid"
diagnosis, and whenever both scans succeed the two proposed alternatives are
exactly the nearest such count below n and the nearest above n (the upward
search bounded at 16). -/
theorem planGrid_rejects_wide_single_row (n : ℕ) (h2 : 2 ≤ n) (h64 : n ≤ 64)
    (hrows : (gridLayout n).2 = 1) (hcols : 3 < (gridLayout n).1) :
    planGrid Provider.gemini n = PlanResult.rejected (rejectMsg n) (suggestions n) ∧
    ∀ d u, suggestDown n = some d → suggestUp n = some u →
      suggestions n = [d, u] ∧
      2 ≤ d ∧ d < n ∧ goodAlt d = true ∧
      (∀ m, d < m → m < n → goodAlt m = false) ∧
      n < u ∧ u ≤ 16 ∧ goodAlt u = true ∧
      (∀ m, n < m → m < u → goodAlt m = false) := by
  constructor
  · rw [planGrid, if_pos ⟨rfl, hrows, hcols⟩]
  · intro d u hd hu
    obtain ⟨hd1, hd2, hd3, hd4⟩ := downFrom_some hd
    obtain ⟨hu1, hu2, hu3, hu4⟩ := upFromAux_some hu
    refine ⟨?_, hd1, by omega, hd3, fun m hm hm2 => hd4 m hm (by omega),
      by omega, hu2, hu3, fun m hm hm2 => hu4 m (by omega) hm2⟩
    simp [suggestions, hd, hu, Option.toList]

theorem planGrid_rejects_wide_single_row_witness :
    planGrid Provider.gemini 7 = PlanResult.rejected (rejectMsg 7) (suggestions 7) ∧
    suggestions 7 = [6, 8] := by
  have h := planGrid_rejects_wide_single_row 7 (by decide) (by decide)
    (by decide) (by decide)
  exact ⟨h.1, (h.2 6 8 (by decide) (by decide)).1⟩

/-!
## Aspect negotiation (guff.ts bestAspectRatio, lines 206-222)

The JS doubles are modelled as exact reals.  The loop keeps the first entry
whose log-domain distance to the target is strictly smaller than the best so
far; the initial bestDist = Infinity is modelled by Option (none beats
nothing, so the first entry always replaces it when the target is positive,
exactly as dist < Infinity holds for any finite dist).
-/

noncomputable def aspectRatios : List (String × ℝ) :=
  [("1:1", 1), ("16:9", 16 / 9), ("9:16", 9 / 16), ("4:3", 4 / 3), ("3:4", 3 / 4)]

open Classical in
noncomputable def bestAspectAux (target : ℝ) :
    List (String × ℝ) → String × Option ℝ → String
  | [], best => best.1
  | r :: rs, best =>
    let dist := |Real.log (r.2 / target)|
    match best.2 with
    | none => bestAspectAux target rs (r.1, some dist)
    | some dBest =>
      if dist < dBest then bestAspectAux target rs (r.1, some dist)
      else bestAspectAux target rs best

noncomputable def bestAspectRatio (cols rows frameAR : ℝ) : String :=
  bestAspectAux ((cols * frameAR) / rows) aspectRatios ("1:1", none)

/-- C4: aspect negotiation is scale-invariant: scaling cols and rows by the
same positive factor k leaves the selected label unchanged, because the
selection only depends on the target ratio (cols * frameAR) / rows, which is
invariant under the scaling. -/
theorem bestAspectRatio_scale_invariant (cols rows frameAR k : ℝ)
    (hc : 0 < cols) (hr : 0 < rows) (ha : 0 < frameAR) (hk : 0 < k) :
    bestAspectRatio (k * cols) (k * rows) frameAR = bestAspectRatio cols rows frameAR := by
  have hr0 : rows ≠ 0 := ne_of_gt hr
  have hk0 : k ≠ 0 := ne_of_gt hk
  have key : (k * cols * frameAR) / (k * rows) = (cols * frameAR) / rows := by
    field_simp
    ring
  rw [bestAspectRatio, bestAspectRatio, key]

theorem bestAspectRatio_scale_invariant_witness :
    (0 : ℝ) < 1 ∧ (0 : ℝ) < 2 ∧
      bestAspectRatio (2 * 1) (2 * 1) 1 = bestAspectRatio 1 1 1 :=
  ⟨by norm_num, by norm_num,
    bestAspectRatio_scale_invariant 1 1 1 2 (by norm_num) (by norm_num)
      (by norm_num) (by norm_num)⟩

/-!
## Grid Slicer drift detection (guff.ts lines 708-724, part_001 lines 308-325)

```
const expectedFrameW = imgW / cols;
const expectedFrameH = expectedFrameW / frameAR;
const detectedRows = Math.round(imgH / expectedFrameH);
let actualRows = rows;
if (detectedRows !== rows) { console.log("Warning: ..."); actualRows = detectedRows; }
```
-/

def expectedFrameW (imgW cols : ℕ) : ℚ := (imgW : ℚ) / cols

def expectedFrameH (imgW cols : ℕ) (frameAR : ℚ) : ℚ := expectedFrameW imgW cols / frameAR

def detectedRows (imgW imgH cols : ℕ) (frameAR : ℚ) : ℤ :=
  jsRound ((imgH : ℚ) / expectedFrameH imgW cols frameAR)

/-- Returns (actualRows, warningEmitted). -/
def actualRowsAndWarn (imgW imgH cols : ℕ) (frameAR : ℚ) (rows : ℕ) : ℤ × Bool :=
  if detectedRows imgW imgH cols frameAR ≠ (rows : ℤ) then
    (detectedRows imgW imgH cols frameAR, true)
  else ((rows : ℤ), false)

/-- C5: the slicer derives detectedRows = round(imgH / (imgW/cols/frameAR));
when it matches the requested rows no warning is emitted and the requested
geometry is used, and when it differs a warning is emitted and detectedRows is
used instead; in particular an image whose height corresponds to rows+1 rows
at the expected cell height yields detectedRows = rows + 1. -/
theorem detectedRows_drift_correction (imgW imgH cols rows : ℕ) (frameAR : ℚ) :
    (detectedRows imgW imgH cols frameAR = (rows : ℤ) →
      actualRowsAndWarn imgW imgH cols frameAR rows = ((rows : ℤ), false)) ∧
    (detectedRows imgW imgH cols frameAR ≠ (rows : ℤ) →
      actualRowsAndWarn imgW imgH cols frameAR rows =
        (detectedRows imgW imgH cols frameAR, true)) ∧
    (0 < expectedFrameH imgW cols frameAR →
      (imgH : ℚ) = ((rows : ℚ) + 1) * expectedFrameH imgW cols frameAR →
      detectedRows imgW imgH cols frameAR = (rows : ℤ) + 1) := by
  refine ⟨fun h => ?_, fun h => ?_, fun hpos h => ?_⟩
  · rw [actualRowsAndWarn, if_neg (by simpa using h)]
  · rw [actualRowsAndWarn, if_pos h]
  · rw [detectedRows, h, mul_div_assoc,
      div_self (ne_of_gt hpos), mul_one, jsRound_eq_round]
    have : ((rows : ℚ) + 1) = (((rows : ℤ) + 1 : ℤ) : ℚ) := by push_cast; ring
    rw [this, round_intCast]

theorem detectedRows_drift_correction_witness :
    detectedRows 200 300 2 1 ≠ (2 : ℤ) ∧
      actualRowsAndWarn 200 300 2 1 2 = (3, true) := by
  have hne : detectedRows 200 300 2 1 ≠ (2 : ℤ) := by
    with_unfolding_all decide
  have h := (detectedRows_drift_correction 200 300 2 2 1).2.1 hne
  have hval : detectedRows 200 300 2 1 = 3 := by
    with_unfolding_all decide
  rw [hval] at h
  exact ⟨hne, h⟩

/-!
## Grid-cell extraction geometry (guff.ts lines 723-758, part_001 lines 324-350)

```
const frameW = Math.floor(imgW / cols);
const frameH = Math.floor(imgH / actualRows);
const insetX = Math.max(1, Math.round(frameW * 0.03));
const insetY = Math.max(1, Math.round(frameH * 0.03));
... .extract({ left: col * frameW + insetX, top: row * frameH + insetY,
               width: frameW - insetX * 2, height: frameH - insetY * 2 })
```
-/

def insetFor (side : ℕ) : ℤ := max 1 (jsRound ((side : ℚ) * (3 / 100)))

structure ExtractRegion where
  left : ℤ
  top : ℤ
  width : ℤ
  height : ℤ
deriving DecidableEq

def extractRegion (fW fH : ℕ) (col row : ℕ) : ExtractRegion :=
  { left := (col : ℤ) * fW + insetFor fW
    top := (row : ℤ) * fH + insetFor fH
    width := (fW : ℤ) - 2 * insetFor fW
    height := (fH : ℤ) - 2 * insetFor fH }

theorem one_le_insetFor (side : ℕ) : 1 ≤ insetFor side := le_max_left _ _

theorem two_insetFor_lt (side : ℕ) (h : 3 ≤ side) : 2 * insetFor side < (side : ℤ) := by
  have hb : ((jsRound ((side : ℚ) * (3 / 100)) : ℤ) : ℚ) ≤ (side : ℚ) * (3 / 100) + 1 / 2 :=
    jsRound_le _
  have hs : (3 : ℚ) ≤ (side : ℚ) := by exact_mod_cast h
  rw [insetFor]
  rcases max_cases 1 (jsRound ((side : ℚ) * (3 / 100))) with ⟨he, _⟩ | ⟨he, _⟩
  · rw [he]
    have : (3 : ℤ) ≤ (side : ℤ) := by exact_mod_cast h
    omega
  · rw [he]
    have : (2 * jsRound ((side : ℚ) * (3 / 100)) : ℤ) < ((side : ℕ) : ℤ) := by
      have : ((2 * jsRound ((side : ℚ) * (3 / 100)) : ℤ) : ℚ) < ((side : ℕ) : ℚ) := by
        push_cast
        push_cast at hb
        linarith
      exact_mod_cast this
    exact this

/-- C10: every extracted cell rectangle has positive width and height and lies
entirely within the source image: for cols, actualRows ≥ 1, per-cell sizes
frameW = ⌊imgW/cols⌋ ≥ 3 and frameH = ⌊imgH/actualRows⌋ ≥ 3, and any
col < cols, row < actualRows, the region
(col·frameW + insetX, row·frameH + insetY, frameW − 2·insetX, frameH − 2·insetY)
stays inside [0, imgW] × [0, imgH]. -/
theorem extractRegion_within_bounds (imgW imgH cols actualRows col row : ℕ)
    (hc : 1 ≤ cols) (hr : 1 ≤ actualRows)
    (hfw : 3 ≤ imgW / cols) (hfh : 3 ≤ imgH / actualRows)
    (hcol : col < cols) (hrow : row < actualRows) :
    0 < (extractRegion (imgW / cols) (imgH / actualRows) col row).width ∧
    0 < (extractRegion (imgW / cols) (imgH / actualRows) col row).height ∧
    0 ≤ (extractRegion (imgW / cols) (imgH / actualRows) col row).left ∧
    0 ≤ (extractRegion (imgW / cols) (imgH / actualRows) col row).top ∧
    (extractRegion (imgW / cols) (imgH / actualRows) col row).left +
      (extractRegion (imgW / cols) (imgH / actualRows) col row).width ≤ (imgW : ℤ) ∧
    (extractRegion (imgW / cols) (imgH / actualRows) col row).top +
      (extractRegion (imgW / cols) (imgH / actualRows) col row).height ≤ (imgH : ℤ) := by
  set fW := imgW / cols with hfWdef
  set fH := imgH / actualRows with hfHdef
  have hinx := one_le_insetFor fW
  have hiny := one_le_insetFor fH
  have h2x := two_insetFor_lt fW hfw
  have h2y := two_insetFor_lt fH hfh
  have hWsum : ((col + 1) * fW : ℤ) ≤ (imgW : ℤ) := by
    have h1 : (col + 1) * fW ≤ cols * fW := Nat.mul_le_mul_right _ (by omega)
    have h2 : cols * fW ≤ imgW := by
      rw [hfWdef, mul_comm]
      exact Nat.div_mul_le_self imgW cols
    exact_mod_cast le_trans h1 h2
  have hHsum : ((row + 1) * fH : ℤ) ≤ (imgH : ℤ) := by
    have h1 : (row + 1) * fH ≤ actualRows * fH := Nat.mul_le_mul_right _ (by omega)
    have h2 : actualRows * fH ≤ imgH := by
      rw [hfHdef, mul_comm]
      exact Nat.div_mul_le_self imgH actualRows
    exact_mod_cast le_trans h1 h2
  have ecol : ((col + 1) * fW : ℤ) = (col : ℤ) * fW + fW := by ring
  have erow : ((row + 1) * fH : ℤ) = (row : ℤ) * fH + fH := by ring
  have hcol0 : (0 : ℤ) ≤ (col : ℤ) * fW := by positivity
  have hrow0 : (0 : ℤ) ≤ (row : ℤ) * fH := by positivity
  simp only [extractRegion]
  refine ⟨by omega, by omega, by omega, by omega, ?_, ?_⟩
  · rw [ecol] at hWsum; omega
  · rw [erow] at hHsum; omega

theorem extractRegion_within_bounds_witness :
    0 < (extractRegion (200 / 2) (200 / 2) 1 1).width ∧
    0 < (extractRegion (200 / 2) (200 / 2) 1 1).height ∧
    0 ≤ (extractRegion (200 / 2) (200 / 2) 1 1).left ∧
    0 ≤ (extractRegion (200 / 2) (200 / 2) 1 1).top ∧
    (extractRegion (200 / 2) (200 / 2) 1 1).left +
      (extractRegion (200 / 2) (200 / 2) 1 1).width ≤ (200 : ℤ) ∧
    (extractRegion (200 / 2) (200 / 2) 1 1).top +
      (extractRegion (200 / 2) (200 / 2) 1 1).height ≤ (200 : ℤ) :=
  extractRegion_within_bounds 200 200 2 2 1 1 (by decide) (by decide)
    (by decide) (by decide) (by decide) (by decide)

/-!
## Frame Reconciler (part_001 lines 352-399)

Each extracted cell is trimmed, the maxima of the trimmed sizes are accumulated
with a running Math.max starting at 0, and every trimmed cell is composited
centered (offsets Math.round((max - size)/2)) onto a fresh opaque white canvas
of the max size before the final contain-resize.
-/

structure Trimmed where
  width : ℕ
  height : ℕ
deriving DecidableEq

def maxTrimW (ts : List Trimmed) : ℕ := ts.foldl (fun m t => max m t.width) 0

def maxTrimH (ts : List Trimmed) : ℕ := ts.foldl (fun m t => max m t.height) 0

/-- One composite step: canvas size, the background fill (opaque white
r,g,b,alpha) and the top-left offset at which the trimmed cell is drawn. -/
structure Composited where
  canvasW : ℕ
  canvasH : ℕ
  background : ℕ × ℕ × ℕ × ℕ
  left : ℤ
  top : ℤ
deriving DecidableEq

def compositeCell (canvasW canvasH : ℕ) (t : Trimmed) : Composited :=
  { canvasW := canvasW
    canvasH := canvasH
    background := (255, 255, 255, 1)
    left := jsRound (((canvasW : ℚ) - t.width) / 2)
    top := jsRound (((canvasH : ℚ) - t.height) / 2) }

def reconcile (ts : List Trimmed) : List Composited :=
  ts.map (compositeCell (maxTrimW ts) (maxTrimH ts))

theorem foldl_max_le (f : Trimmed → ℕ) :
    ∀ (ts : List Trimmed) (m : ℕ),
      m ≤ ts.foldl (fun a t => max a (f t)) m ∧
        ∀ t ∈ ts, f t ≤ ts.foldl (fun a t => max a (f t)) m := by
  intro ts
  induction ts with
  | nil => exact fun m => ⟨le_refl m, by simp⟩
  | cons t ts ih =>
    intro m
    have h := ih (max m (f t))
    refine ⟨le_trans (le_max_left _ _) h.1, fun u hu => ?_⟩
    rcases List.mem_cons.mp hu with rfl | hmem
    · exact le_trans (le_max_right _ _) h.1
    · exact h.2 u hmem

/-- C6: the shared canvas is maxTrimmedWidth × maxTrimmedHeight (every trimmed
cell fits), each cell is composited on an opaque white canvas at the offset
(round((canvasW − w)/2), round((canvasH − h)/2)); for cells 10×10 and 20×20
the canvas is 20×20, the 10×10 cell lands at offset (5,5) and the 20×20 cell
at (0,0). -/
theorem reconcile_centering (ts : List Trimmed) :
    (∀ t ∈ ts, t.width ≤ maxTrimW ts ∧ t.height ≤ maxTrimH ts) ∧
    reconcile ts = ts.map (fun t =>
      { canvasW := maxTrimW ts
        canvasH := maxTrimH ts
        background := (255, 255, 255, 1)
        left := jsRound (((maxTrimW ts : ℚ) - t.width) / 2)
        top := jsRound (((maxTrimH ts : ℚ) - t.height) / 2) }) ∧
    reconcile [⟨10, 10⟩, ⟨20, 20⟩] =
      [{ canvasW := 20, canvasH := 20, background := (255, 255, 255, 1),
         left := 5, top := 5 },
       { canvasW := 20, canvasH := 20, background := (255, 255, 255, 1),
         left := 0, top := 0 }] := by
  refine ⟨fun t ht => ⟨?_, ?_⟩, rfl, ?_⟩
  · exact (foldl_max_le Trimmed.width ts 0).2 t ht
  · exact (foldl_max_le Trimmed.height ts 0).2 t ht
  · with_unfolding_all decide

theorem reconcile_centering_witness :
    (10 : ℕ) ≤ maxTrimW [⟨10, 10⟩, ⟨20, 20⟩] ∧
      reconcile [⟨10, 10⟩, ⟨20, 20⟩] =
        [{ canvasW := 20, canvasH := 20, background := (255, 255, 255, 1),
           left := 5, top := 5 },
         { canvasW := 20, canvasH := 20, background := (255, 255, 255, 1),
           left := 0, top := 0 }] :=
  ⟨((reconcile_centering [⟨10, 10⟩, ⟨20, 20⟩]).1 ⟨10, 10⟩ (by simp)).1,
    (reconcile_centering [⟨10, 10⟩, ⟨20, 20⟩]).2.2⟩

/-!
## Procedural frame validation (guff.ts executeFrameScript, lines 429-457)

```
if (!Array.isArray(svgs) || svgs.length === 0) {
  console.error(`Error: expected array of SVG strings, got ${typeof svgs}`); exit(1);
}
if (svgs.length !== opts.numFrames) {
  console.log(`Warning: got ${svgs.length} frames (expected ${opts.numFrames})`);
}
for (let i = 0; i < svgs.length; i++) {
  if (typeof svgs[i] !== "string" || !svgs[i].trim().startsWith("<svg")) {
    console.error(`Error: frame ${i} is not a valid SVG string`); exit(1);
  }
}
return svgs;
```
Parsed JSON values are embedded as JsonVal; JS String.prototype.trim and
startsWith are modelled on the character list of the string.
-/

inductive JsonVal where
  | str (s : String)
  | num (q : ℚ)
  | bool (b : Bool)
  | null
  | arr (elems : List JsonVal)
  | obj (fields : List (String × JsonVal))

/-- JS typeof on a parsed JSON value (typeof null and typeof [] are "object"). -/
def typeofJson : JsonVal → String
  | JsonVal.str _ => "string"
  | JsonVal.num _ => "number"
  | JsonVal.bool _ => "boolean"
  | JsonVal.null => "object"
  | JsonVal.arr _ => "object"
  | JsonVal.obj _ => "object"

/-- JS s.trim() on the character list: strip leading and trailing whitespace. -/
def jsTrim (cs : List Char) : List Char :=
  ((cs.dropWhile Char.isWhitespace).reverse.dropWhile Char.isWhitespace).reverse

def svgOpenTag : List Char := ['<', 's', 'v', 'g']

/-- typeof v === "string" && v.trim().startsWith("<svg") -/
def isValidSvg : JsonVal → Bool
  | JsonVal.str s => svgOpenTag.isPrefixOf (jsTrim s.toList)
  | _ => false

/-- The validation loop: index of the first invalid frame, if any. -/
def firstBadAux : ℕ → List JsonVal → Option ℕ
  | _, [] => none
  | i, v :: vs => if isValidSvg v then firstBadAux (i + 1) vs else some i

def firstBad (xs : List JsonVal) : Option ℕ := firstBadAux 0 xs

def badFrameMsg (i : ℕ) : String := "frame " ++ toString i ++ " is not a valid SVG string"

inductive ScriptResult where
  | fatalNotArray (msg : String)
  | fatalBadFrame (i : ℕ) (msg : String)
  | ok (warned : Bool) (svgs : List JsonVal)

def validateFrames (parsed : JsonVal) (numFrames : ℕ) : ScriptResult :=
  match parsed with
  | JsonVal.arr xs =>
    if xs.length = 0 then
      ScriptResult.fatalNotArray ("expected array of SVG strings, got object")
    else
      match firstBad xs with
      | some i => ScriptResult.fatalBadFrame i (badFrameMsg i)
      | none => ScriptResult.ok (xs.length != numFrames) xs
  | v => ScriptResult.fatalNotArray ("expected array of SVG strings, got " ++ typeofJson v)

/-! Helper lemmas about the validation loop. -/

theorem firstBadAux_none {xs : List JsonVal} :
    ∀ {k : ℕ}, firstBadAux k xs = none → ∀ v ∈ xs, isValidSvg v = true := by
  induction xs with
  | nil => intro k _ v hv; simp at hv
  | cons v vs ih =>
    intro k h u hu
    rw [firstBadAux] at h
    by_cases hv : isValidSvg v = true
    · rw [if_pos hv] at h
      rcases List.mem_cons.mp hu with rfl | hmem
      · exact hv
      · exact ih h u hmem
    · rw [if_neg hv] at h
      cases h

theorem firstBadAux_all_valid {xs : List JsonVal} (hall : ∀ v ∈ xs, isValidSvg v = true) :
    ∀ k, firstBadAux k xs = none := by
  induction xs with
  | nil => intro k; rfl
  | cons v vs ih =>
    intro k
    rw [firstBadAux, if_pos (hall v (List.mem_cons_self v vs))]
    exact ih (fun u hu => hall u (List.mem_cons_of_mem v hu)) (k + 1)

theorem firstBadAux_some {xs : List JsonVal} :
    ∀ {k i : ℕ}, firstBadAux k xs = some i →
      ∃ m, i = k + m ∧ m < xs.length ∧
        isValidSvg (xs.getD m JsonVal.null) = false ∧
        ∀ j < m, isValidSvg (xs.getD j JsonVal.null) = true := by
  induction xs with
  | nil => intro k i h; simp [firstBadAux] at h
  | cons v vs ih =>
    intro k i h
    rw [firstBadAux] at h
    by_cases hv : isValidSvg v = true
    · rw [if_pos hv] at h
      obtain ⟨m, hm1, hm2, hm3, hm4⟩ := ih h
      refine ⟨m + 1, by omega, by simpa using hm2, by simpa using hm3, ?_⟩
      intro j hj
      match j with
      | 0 => simpa using hv
      | j + 1 => simpa using hm4 j (by omega)
    · rw [if_neg hv] at h
      cases h
      exact ⟨0, by omega, by simp, by simpa using Bool.not_eq_true _ ▸ hv,
        fun j hj => by omega⟩

theorem validateFrames_ok {xs : List JsonVal} (n : ℕ) (hne : xs ≠ [])
    (hall : ∀ v ∈ xs, isValidSvg v = true) :
    validateFrames (JsonVal.arr xs) n = ScriptResult.ok (xs.length != n) xs := by
  rw [validateFrames]
  rw [if_neg (by simpa using List.length_pos_iff_ne_nil.mpr hne |>.ne')]
  rw [firstBad, firstBadAux_all_valid hall 0]

/-- C7: if some element of the parsed array is not a string whose trimmed form
starts with "<svg", validation fails fatally at the first such index i with
the message "frame i is not a valid SVG string"; an array whose elements all
pass is never rejected on this ground (it validates to ok); the concrete
payload ["<svg/>", 42] is rejected at index 1. -/
theorem validateFrames_rejects_bad_frame (xs : List JsonVal) (n : ℕ) (hne : xs ≠ []) :
    ((∃ v ∈ xs, isValidSvg v = false) →
      ∃ i, i < xs.length ∧
        validateFrames (JsonVal.arr xs) n = ScriptResult.fatalBadFrame i (badFrameMsg i) ∧
        isValidSvg (xs.getD i JsonVal.null) = false ∧
        ∀ j < i, isValidSvg (xs.getD j JsonVal.null) = true) ∧
    ((∀ v ∈ xs, isValidSvg v = true) →
      validateFrames (JsonVal.arr xs) n = ScriptResult.ok (xs.length != n) xs) ∧
    validateFrames (JsonVal.arr [JsonVal.str "<svg/>", JsonVal.num 42]) 2 =
      ScriptResult.fatalBadFrame 1 "frame 1 is not a valid SVG string" := by
  refine ⟨fun hbad => ?_, validateFrames_ok n hne, ?_⟩
  · have hnone : firstBad xs ≠ none := by
      intro hcontra
      obtain ⟨v, hv, hvbad⟩ := hbad
      have := firstBadAux_none hcontra v hv
      rw [this] at hvbad
      cases hvbad
    obtain ⟨i, hi⟩ := Option.ne_none_iff_exists'.mp hnone
    obtain ⟨m, hm1, hm2, hm3, hm4⟩ := firstBadAux_some hi
    have hm0 : i = m := by omega
    subst hm0
    refine ⟨i, hm2, ?_, hm3, hm4⟩
    rw [validateFrames]
    rw [if_neg (by simpa using List.length_pos_iff_ne_nil.mpr hne |>.ne')]
    rw [firstBad] at hi
    rw [firstBad, hi]
  · rw [validateFrames]
    rw [if_neg (by simp)]
    have : firstBad [JsonVal.str "<svg/>", JsonVal.num 42] = some 1 := by decide
    rw [this]
    rfl

theorem validateFrames_rejects_bad_frame_witness :
    validateFrames (JsonVal.arr [JsonVal.str "<svg/>", JsonVal.num 42]) 2 =
      ScriptResult.fatalBadFrame 1 "frame 1 is not a valid SVG string" :=
  (validateFrames_rejects_bad_frame [JsonVal.str "<svg/>", JsonVal.num 42] 2
    (by simp)).2.2

/-!
## Final frame assembly

The procedural path (generateClaude, guff.ts lines 592-604) rasterizes every
returned SVG at outputW × outputH (contain fit) in array order; the grid path
(generateGemini, lines 736-758) extracts cells row-major — rows top-to-bottom,
columns left-to-right — stopping once numFrames cells have been collected, and
resizes each to outputW × outputH (cover fit).
-/

inductive FrameSrc where
  | fromArray (i : ℕ)
  | fromCell (row col : ℕ)
deriving DecidableEq

structure Frame where
  width : ℕ
  height : ℕ
  src : FrameSrc
deriving DecidableEq

inductive RunOutcome where
  | failed
  | success (frames : List Frame)
deriving DecidableEq

def RunOutcome.frameCount : RunOutcome → Option ℕ
  | RunOutcome.failed => none
  | RunOutcome.success fs => some fs.length

/-- Rasterization of the validated SVG list: one outputW × outputH frame per
array element, in array order. -/
def proceduralFrames (count w h : ℕ) : List Frame :=
  (List.range count).map (fun i => { width := w, height := h, src := FrameSrc.fromArray i })

def runProcedural (parsed : JsonVal) (numFrames w h : ℕ) : RunOutcome :=
  match validateFrames parsed numFrames with
  | ScriptResult.ok _ svgs => RunOutcome.success (proceduralFrames svgs.length w h)
  | _ => RunOutcome.failed

/-- Row-major cell enumeration of an actualRows × cols grid. -/
def gridCells (actualRows cols : ℕ) : List (ℕ × ℕ) :=
  (List.range actualRows).flatMap (fun r => (List.range cols).map (fun c => (r, c)))

/-- The slicing loop: cells in row-major order until numFrames are collected,
each resized to outputW × outputH. -/
def geminiFrames (cols actualRows numFrames w h : ℕ) : List Frame :=
  ((gridCells actualRows cols).take numFrames).map
    (fun rc => { width := w, height := h, src := FrameSrc.fromCell rc.1 rc.2 })

def runGemini (imgW imgH cols rows numFrames w h : ℕ) (frameAR : ℚ) : RunOutcome :=
  RunOutcome.success
    (geminiFrames cols (actualRowsAndWarn imgW imgH cols frameAR rows).1.toNat
      numFrames w h)

/-- C8: a parsed array of valid SVG strings whose length differs from the
requested count validates with a warning and is returned as-is, and the
pipeline proceeds with the produced length — one outputW × outputH frame per
element — never aborting. -/
theorem validateFrames_count_mismatch_recoverable (xs : List JsonVal) (n w h : ℕ)
    (hne : xs ≠ []) (hall : ∀ v ∈ xs, isValidSvg v = true) (hmis : xs.length ≠ n) :
    validateFrames (JsonVal.arr xs) n = ScriptResult.ok true xs ∧
    runProcedural (JsonVal.arr xs) n w h =
      RunOutcome.success (proceduralFrames xs.length w h) ∧
    (proceduralFrames xs.length w h).length = xs.length := by
  have hok := validateFrames_ok n hne hall
  have hwarn : (xs.length != n) = true := by simpa using hmis
  rw [hwarn] at hok
  refine ⟨hok, ?_, by simp [proceduralFrames]⟩
  rw [runProcedural, hok]

theorem validateFrames_count_mismatch_recoverable_witness :
    validateFrames (JsonVal.arr (List.replicate 5 (JsonVal.str "<svg/>"))) 4 =
      ScriptResult.ok true (List.replicate 5 (JsonVal.str "<svg/>")) ∧
    runProcedural (JsonVal.arr (List.replicate 5 (JsonVal.str "<svg/>"))) 4 128 128 =
      RunOutcome.success (proceduralFrames 5 128 128) ∧
    (proceduralFrames 5 128 128).length = 5 :=
  validateFrames_count_mismatch_recoverable (List.replicate 5 (JsonVal.str "<svg/>"))
    4 128 128 (by simp) (by intro v hv; rw [List.eq_of_mem_replicate hv]; decide)
    (by simp)

/-- C9: an empty JSON array is rejected with the fatal "expected array of SVG
strings" diagnosis (typeof [] is "object") rather than treated as a count
mismatch, so a successful validation never returns a zero-length frame list. -/
theorem validateFrames_empty_array_fatal (n : ℕ) :
    validateFrames (JsonVal.arr []) n =
      ScriptResult.fatalNotArray "expected array of SVG strings, got object" ∧
    ∀ (parsed : JsonVal) (warned : Bool) (svgs : List JsonVal),
      validateFrames parsed n = ScriptResult.ok warned svgs → svgs ≠ [] := by
  refine ⟨rfl, fun parsed warned svgs h => ?_⟩
  match parsed with
  | JsonVal.str s => simp [validateFrames] at h
  | JsonVal.num q => simp [validateFrames] at h
  | JsonVal.bool b => simp [validateFrames] at h
  | JsonVal.null => simp [validateFrames] at h
  | JsonVal.obj fields => simp [validateFrames] at h
  | JsonVal.arr xs =>
    rw [validateFrames] at h
    by_cases hlen : xs.length = 0
    · rw [if_pos hlen] at h
      cases h
    · rw [if_neg hlen] at h
      match hfb : firstBad xs with
      | some i => rw [hfb] at h; cases h
      | none =>
        rw [hfb] at h
        cases h
        exact fun hcontra => hlen (by simp [hcontra])

theorem validateFrames_empty_array_fatal_witness :
    validateFrames (JsonVal.arr []) 3 =
      ScriptResult.fatalNotArray "expected array of SVG strings, got object" :=
  (validateFrames_empty_array_fatal 3).1

theorem gridCells_eq (R C : ℕ) (hC : 0 < C) :
    gridCells R C = (List.range (R * C)).map (fun i => (i / C, i % C)) := by
  induction R with
  | zero => simp [gridCells]
  | succ R ih =>
    rw [gridCells, List.range_succ, List.flatMap_append, ← gridCells,
      Nat.succ_mul, List.range_add, List.map_append, List.map_map, ih]
    congr 1
    · simp only [List.flatMap_cons, List.flatMap_nil, List.append_nil]
      refine (List.map_congr_left fun c hc => ?_).symm
      have hlt : c < C := List.mem_range.mp hc
      simp only [Function.comp_apply]
      have hdiv : (R * C + c) / C = R := by
        rw [mul_comm, Nat.mul_add_div hC, Nat.div_eq_of_lt hlt, Nat.add_zero]
      have hmod : (R * C + c) % C = c := by
        rw [mul_comm, Nat.mul_add_mod, Nat.mod_eq_of_lt hlt]
      rw [hdiv, hmod]

/-- C1 (amended): a successful run produces exactly one outputW × outputH
frame per raw element, in raw production order — on the procedural path one
frame per JSON array element in array order (so the count equals
FrameRequest.count only when the script honored the request), and on the grid
path min(count, cols · actualRows) frames in row-major cell order; the legacy
reconcile stage preserves the count. -/
theorem finalFrames_match_produced_elements :
    (∀ (parsed : JsonVal) (n w h : ℕ) (fs : List Frame),
      runProcedural parsed n w h = RunOutcome.success fs →
      ∃ warned svgs,
        validateFrames parsed n = ScriptResult.ok warned svgs ∧
        fs.length = svgs.length ∧
        ∀ i < fs.length,
          fs[i]? = some { width := w, height := h, src := FrameSrc.fromArray i }) ∧
    (∀ (imgW imgH cols rows n w h : ℕ) (frameAR : ℚ) (fs : List Frame),
      0 < cols →
      runGemini imgW imgH cols rows n w h frameAR = RunOutcome.success fs →
      fs.length =
        min n ((actualRowsAndWarn imgW imgH cols frameAR rows).1.toNat * cols) ∧
      ∀ i < fs.length,
        fs[i]? =
          some { width := w, height := h, src := FrameSrc.fromCell (i / cols) (i % cols) }) ∧
    (∀ ts : List Trimmed, (reconcile ts).length = ts.length) := by
  refine ⟨?_, ?_, fun ts => by simp [reconcile]⟩
  · intro parsed n w h fs hrun
    rw [runProcedural] at hrun
    cases hv : validateFrames parsed n with
    | ok warned svgs =>
      rw [hv] at hrun
      cases hrun
      refine ⟨warned, svgs, rfl, by simp [proceduralFrames], ?_⟩
      intro i hi
      simp only [proceduralFrames, List.length_map, List.length_range] at hi
      simp [proceduralFrames, List.getElem?_map, List.getElem?_range, hi]
    | fatalNotArray msg => rw [hv] at hrun; cases hrun
    | fatalBadFrame i m => rw [hv] at hrun; cases hrun
  · intro imgW imgH cols rows n w h frameAR fs hc hrun
    rw [runGemini] at hrun
    cases hrun
    rw [geminiFrames, gridCells_eq _ cols hc, ← List.map_take, List.take_range,
      List.map_map]
    constructor
    · simp
    · intro i hi
      simp only [List.length_map, List.length_range] at hi
      simp [List.getElem?_map, List.getElem?_range, hi]

/-- C1 as stated is false: a successful procedural run can finish with a
frame count different from FrameRequest.count — five valid SVG elements
returned for a four-frame request complete successfully with five frames. -/
theorem finalFrames_count_counterexample :
    RunOutcome.frameCount
      (runProcedural (JsonVal.arr (List.replicate 5 (JsonVal.str "<svg/>"))) 4 128 128) =
      some 5 ∧ (5 : ℕ) ≠ 4 := by
  exact ⟨by decide, by decide⟩

theorem finalFrames_match_produced_elements_witness :
    ∃ warned svgs,
      validateFrames (JsonVal.arr [JsonVal.str "<svg/>"]) 1 = ScriptResult.ok warned svgs ∧
      (proceduralFrames 1 8 8).length = svgs.length ∧
      ∀ i < (proceduralFrames 1 8 8).length,
        (proceduralFrames 1 8 8)[i]? =
          some { width := 8, height := 8, src := FrameSrc.fromArray i } :=
  finalFrames_match_produced_elements.1 (JsonVal.arr [JsonVal.str "<svg/>"]) 1 8 8
    (proceduralFrames 1 8 8) (by decide)
